import Mathlib

/-!
Shallow embedding of the `sloth` cache (`src/cache/mod.rs`): a multi-slot
single-writer cache.  The Rust type `Cache<T, LEN>` holds an atomic `index`,
an atomic `writing` flag and an array of `LEN` items, each item being an
atomic reader `count` together with an `UnsafeCell<Option<T>>` cell.

The embedding is sequential: one operation runs to completion at a time, so
the atomics become plain fields of a state record, and the writer's probe
loop becomes a fuel-indexed recursion (`none` models non-termination).  The
`unwrap_unchecked` inside `get_data` is modelled by returning an `Option T`:
a `none` result marks the undefined-behaviour case of reading an `Empty`
cell.  The drop of the previous occupant in `update` is modelled by
returning the replaced value, so destructor invocations can be counted.
-/

namespace Sloth

/-- One slot of the cache: the Rust struct `Item<T>` with its atomic reader
`count` and the data cell `UnsafeCell<Option<T>>`. -/
structure Item (T : Type) where
  count : Nat
  data : Option T
deriving Repr, DecidableEq

/-- The Rust struct `Cache<T, LEN>`: published slot `index`, writer
exclusion flag `writing`, and the slot array `items` (a list of length
`LEN`). -/
structure Cache (T : Type) (LEN : Nat) where
  index : Nat
  writing : Bool
  items : List (Item T)
deriving Repr, DecidableEq

/-- Rust `usize::is_power_of_two`, used by the const check
`CHECK_LEN_IS_POWER_OF_TWO`: true exactly when `n = 2 ^ k` for some `k`.
The bound `k < n + 1` makes the proposition decidable; it loses nothing
because `k < 2 ^ k`. -/
def isPowerOfTwo (n : Nat) : Bool :=
  decide (∃ k, k < n + 1 ∧ n = 2 ^ k)

/-- `Self::LEN_MASK = LEN - 1`, the low-bit mask used for index wrapping. -/
def LEN_MASK (LEN : Nat) : Nat := LEN - 1

/-- In-place mutation of the element at one index of a list, leaving every
other element alone; models `items[i].field = ...` on the Rust array. -/
def modifyIdx (f : α → α) : Nat → List α → List α
  | _, [] => []
  | 0, a :: l => f a :: l
  | n + 1, a :: l => a :: modifyIdx f n l

/-- `Cache::new(data)`: runs the const assertion
`assert!(LEN.is_power_of_two())` (modelled as returning `none` when the
build would fail), then builds `LEN` items with `count = 0` and empty data
cells and stores `Some(data)` into item 0. -/
def Cache.new (T : Type) (LEN : Nat) (data : T) : Option (Cache T LEN) :=
  if isPowerOfTwo LEN then
    some { index := 0
           writing := false
           items := modifyIdx (fun it => { it with data := some data }) 0
             (List.replicate LEN { count := 0, data := none }) }
  else
    none

/-- The private method `fn index(&self)`: load `index` and mask it with
`LEN_MASK`. -/
def Cache.indexMasked (c : Cache T LEN) : Nat :=
  Nat.land c.index (LEN_MASK LEN)

/-- `Cache::get_data`: read the masked index, increment that slot's reader
count, clone the cell's value out (`unwrap_unchecked`: a `none` first
component marks the undefined case of an empty cell), decrement the count.
Returns the clone together with the state after the call. -/
def Cache.get_data (c : Cache T LEN) : Option T × Cache T LEN :=
  let i := c.indexMasked
  let c1 : Cache T LEN :=
    { c with items := modifyIdx (fun it => { it with count := it.count + 1 }) i c.items }
  let v : Option T := (c1.items[i]?).bind Item.data
  let c2 : Cache T LEN :=
    { c1 with items := modifyIdx (fun it => { it with count := it.count - 1 }) i c1.items }
  (v, c2)

/-- The writer's slot-search loop in `Cache::update`: repeatedly advance
`next = (next + 1) & LEN_MASK`, skip `next == current`, and stop at the
first candidate whose reader count is zero.  `counts` is the snapshot of
the per-slot reader counts (sequential execution: no concurrent changes);
the fuel argument bounds the number of iterations, with `none` modelling
an execution of the loop that has not terminated within the fuel. -/
def probe (counts : List Nat) (LEN current : Nat) : Nat → Nat → Option Nat
  | 0, _ => none
  | fuel + 1, next =>
    let nx := Nat.land (next + 1) (LEN_MASK LEN)
    if nx = current then
      probe counts LEN current fuel nx
    else if counts.getD nx 0 = 0 then
      some nx
    else
      probe counts LEN current fuel nx

/-- `Cache::update(data)`: acquire the `writing` flag (sequentially: if the
flag is already held the writer spins forever, modelled as `none`), read
`current = index`, search for a target slot, replace that slot's cell with
`Some(data)` dropping the old occupant, publish `index = next`, release
`writing`.  Returns the state after the call together with the value the
`replace` dropped. -/
def Cache.update (c : Cache T LEN) (data : T) (fuel : Nat) :
    Option (Cache T LEN × Option T) :=
  if c.writing then
    none
  else
    match probe (c.items.map Item.count) LEN c.index fuel c.index with
    | none => none
    | some next =>
      let old : Option T := (c.items[next]?).bind Item.data
      some ({ index := next
              writing := false
              items := modifyIdx (fun it => { it with data := some data }) next c.items },
        old)

/-- The value currently published to readers: the data of the slot that
`get_data` reads (index masked with `LEN_MASK`). -/
def Cache.published (c : Cache T LEN) : Option T :=
  (c.items[c.indexMasked]?).bind Item.data

/-- The values resident in the cache's cells, in slot order: exactly the
values Rust drops when the cache itself is dropped (every `Full` cell). -/
def Cache.residentData (c : Cache T LEN) : List T :=
  c.items.filterMap Item.data

/-- Number of `Full` cells: how many cell-resident values a drop of the
cache destroys. -/
def Cache.fullCount (c : Cache T LEN) : Nat :=
  c.residentData.length

/-- A client operation on the cache: a read (`get_data`) or a write
(`update`). -/
inductive Op (T : Type) where
  | read : Op T
  | write : T → Op T

/-- Result of running a sequence of operations: the final cache state, the
values returned by the reads (in order), the cell-resident values dropped
by the writes (in order), and the target slots the writes installed into
(in order). -/
structure TraceResult (T : Type) (LEN : Nat) where
  final : Cache T LEN
  reads : List (Option T)
  dropped : List T
  targets : List Nat
deriving Repr

/-- Run a list of operations sequentially, each to completion.  A write
uses fuel `LEN` for the probe loop (in a sequential execution the loop
either exits on its first inspected candidate or never); `none` means some
write failed to terminate. -/
def Cache.runT (c : Cache T LEN) : List (Op T) → Option (TraceResult T LEN)
  | [] => some { final := c, reads := [], dropped := [], targets := [] }
  | Op.read :: ops =>
    ((c.get_data).2.runT ops).map (fun r => { r with reads := (c.get_data).1 :: r.reads })
  | Op.write v :: ops =>
    match c.update v LEN with
    | none => none
    | some (c1, old) =>
      (c1.runT ops).map (fun r =>
        { r with dropped := old.toList ++ r.dropped, targets := c1.index :: r.targets })

/-- The value the most recent write installed, or the initial value if no
write occurred: what a sequential `get_data` at the end of the sequence
must return. -/
def lastValue (v : T) : List (Op T) → T
  | [] => v
  | Op.read :: ops => lastValue v ops
  | Op.write w :: ops => lastValue w ops

/-- Five update calls with `r1`, `r2`, `r3`, `r4` reads between consecutive
updates: the operation sequence of the five-write scenario. -/
def fiveWriteOps (v1 v2 v3 v4 v5 : T) (r1 r2 r3 r4 : Nat) : List (Op T) :=
  Op.write v1 :: (List.replicate r1 Op.read ++ (Op.write v2 ::
    (List.replicate r2 Op.read ++ (Op.write v3 :: (List.replicate r3 Op.read ++
      (Op.write v4 :: (List.replicate r4 Op.read ++ [Op.write v5])))))))

/-- The spec's single-threaded `N = 4`, `T = String` scenario (after
construction with `"a"`): read, write `"b"`, read, write `"c"`, read,
write `"d"`, write `"e"`, read. -/
def stringTraceOps : List (Op String) :=
  [Op.read, Op.write "b", Op.read, Op.write "c", Op.read,
    Op.write "d", Op.write "e", Op.read]

/-! ### Basic lemmas about the building blocks -/

theorem length_modifyIdx (f : α → α) : ∀ (i : Nat) (l : List α),
    (modifyIdx f i l).length = l.length
  | i, [] => by cases i <;> rfl
  | 0, _ :: _ => rfl
  | n + 1, _ :: l => by simp [modifyIdx, length_modifyIdx f n l]

theorem getElem?_modifyIdx_self (f : α → α) : ∀ (i : Nat) (l : List α),
    (modifyIdx f i l)[i]? = Option.map f l[i]?
  | _, [] => by simp [modifyIdx]
  | 0, _ :: _ => by simp [modifyIdx]
  | n + 1, _ :: l => by simp [modifyIdx, getElem?_modifyIdx_self f n l]

theorem getElem?_modifyIdx_ne (f : α → α) : ∀ (i j : Nat) (l : List α), i ≠ j →
    (modifyIdx f i l)[j]? = l[j]?
  | _, _, [], _ => by simp [modifyIdx]
  | 0, 0, _ :: _, h => absurd rfl h
  | 0, _ + 1, _ :: _, _ => by simp [modifyIdx]
  | _ + 1, 0, _ :: _, _ => by simp [modifyIdx]
  | n + 1, m + 1, _ :: l, h => by
    simp only [modifyIdx, List.getElem?_cons_succ]
    exact getElem?_modifyIdx_ne f n m l (by omega)

theorem modifyIdx_modifyIdx (f g : α → α) : ∀ (i : Nat) (l : List α),
    modifyIdx g i (modifyIdx f i l) = modifyIdx (fun a => g (f a)) i l
  | i, [] => by cases i <;> rfl
  | 0, _ :: _ => rfl
  | n + 1, a :: l => by simp [modifyIdx, modifyIdx_modifyIdx f g n l]

theorem modifyIdx_id : ∀ (i : Nat) (l : List α), modifyIdx (fun a => a) i l = l
  | i, [] => by cases i <;> rfl
  | 0, _ :: _ => rfl
  | n + 1, a :: l => by simp [modifyIdx, modifyIdx_id n l]

theorem count_eq_zero_of_modifyIdx {T : Type} (f : Item T → Item T)
    (hf : ∀ a, (f a).count = a.count) :
    ∀ (i : Nat) (l : List (Item T)), (∀ it ∈ l, it.count = 0) →
      ∀ it ∈ modifyIdx f i l, it.count = 0
  | _, [], _ => by simp [modifyIdx]
  | 0, a :: l, h => by
    simp only [modifyIdx, List.mem_cons]
    rintro it (rfl | hm)
    · rw [hf]; exact h a (List.mem_cons_self a l)
    · exact h it (List.mem_cons_of_mem a hm)
  | n + 1, a :: l, h => by
    simp only [modifyIdx, List.mem_cons]
    rintro it (rfl | hm)
    · exact h it (List.mem_cons_self it l)
    · exact count_eq_zero_of_modifyIdx f hf n l
        (fun x hx => h x (List.mem_cons_of_mem a hx)) it hm

theorem getD_eq_zero_of_all_zero : ∀ (l : List Nat), (∀ x ∈ l, x = 0) →
    ∀ n, l.getD n 0 = 0
  | [], _, _ => rfl
  | a :: l, h, 0 => h a (List.mem_cons_self a l)
  | a :: l, h, n + 1 =>
    getD_eq_zero_of_all_zero l (fun x hx => h x (List.mem_cons_of_mem a hx)) n

/-- The index-wrapping mask of a power-of-two length is reduction modulo
that length: `x & (2 ^ m - 1) = x % 2 ^ m`. -/
theorem land_mask (x m : Nat) : Nat.land x (LEN_MASK (2 ^ m)) = x % 2 ^ m :=
  Nat.and_pow_two_sub_one_eq_mod x m

theorem succ_mod_mod (a n : Nat) : (a % n + 1) % n = (a + 1) % n := by
  conv_rhs => rw [Nat.add_mod]
  conv_lhs => rw [Nat.add_mod]
  simp [Nat.mod_mod_of_dvd]

/-- `isPowerOfTwo` agrees with the mathematical notion. -/
theorem isPowerOfTwo_iff (n : Nat) : isPowerOfTwo n = true ↔ ∃ k, n = 2 ^ k := by
  unfold isPowerOfTwo
  rw [decide_eq_true_iff]
  constructor
  · rintro ⟨k, _, hk⟩
    exact ⟨k, hk⟩
  · rintro ⟨k, hk⟩
    refine ⟨k, ?_, hk⟩
    have := Nat.lt_two_pow k
    omega

/-! ### The read path -/

/-- `get_data` leaves the cache state exactly as it found it: the increment
and the decrement of the reader count cancel, and nothing else is touched. -/
theorem get_data_state {T : Type} {LEN : Nat} (c : Cache T LEN) :
    (c.get_data).2 = c := by
  show ({ c with items := modifyIdx _ c.indexMasked (modifyIdx _ c.indexMasked c.items) }
    : Cache T LEN) = c
  rw [modifyIdx_modifyIdx]
  show ({ c with items := modifyIdx (fun a => a) c.indexMasked c.items } : Cache T LEN) = c
  rw [modifyIdx_id]

/-- The value `get_data` returns is the published value: the cell it clones
is the one named by the masked index, unchanged by the count increment. -/
theorem get_data_val {T : Type} {LEN : Nat} (c : Cache T LEN) :
    (c.get_data).1 = c.published := by
  show ((modifyIdx (fun it => { it with count := it.count + 1 }) c.indexMasked
    c.items)[c.indexMasked]?).bind Item.data = c.published
  rw [getElem?_modifyIdx_self]
  unfold Cache.published
  cases c.items[c.indexMasked]? <;> rfl

/-! ### The writer's probe loop -/

/-- Any slot the probe loop settles on is in range and distinct from
`current` (the slot published at the start of the write). -/
theorem probe_some_bounds {m : Nat} (counts : List Nat) (current : Nat) :
    ∀ (fuel next t : Nat), probe counts (2 ^ m) current fuel next = some t →
      t < 2 ^ m ∧ t ≠ current
  | 0, _, _, h => by simp [probe] at h
  | fuel + 1, next, t, h => by
    rw [probe] at h
    by_cases hc : Nat.land (next + 1) (LEN_MASK (2 ^ m)) = current
    · rw [if_pos hc] at h
      exact probe_some_bounds counts current fuel _ t h
    · rw [if_neg hc] at h
      by_cases hz : counts.getD (Nat.land (next + 1) (LEN_MASK (2 ^ m))) 0 = 0
      · rw [if_pos hz] at h
        refine ⟨?_, ?_⟩
        · rw [← Option.some_inj.mp h, land_mask]
          exact Nat.mod_lt _ (Nat.pos_pow_of_pos m (by omega))
        · rw [← Option.some_inj.mp h]
          exact hc
      · rw [if_neg hz] at h
        exact probe_some_bounds counts current fuel _ t h

/-- If advancing once from `current` lands back on `current`, the loop can
never exit: every iteration recomputes the same single candidate and skips
it. -/
theorem probe_stuck (counts : List Nat) (LEN current : Nat)
    (h : Nat.land (current + 1) (LEN_MASK LEN) = current) :
    ∀ fuel, probe counts LEN current fuel current = none
  | 0 => rfl
  | fuel + 1 => by
    rw [probe]
    simp only [h, if_pos rfl]
    exact probe_stuck counts LEN current h fuel

/-- When every reader count is zero the loop exits on the very first
candidate it inspects: `(current + 1) mod LEN`, provided `LEN = 2 ^ m` with
`m ≥ 1` so that this candidate differs from `current`. -/
theorem probe_first {m : Nat} (counts : List Nat) (current fuel : Nat)
    (hm : 1 ≤ m) (hcur : current < 2 ^ m) (hz : ∀ x ∈ counts, x = 0)
    (hfuel : 1 ≤ fuel) :
    probe counts (2 ^ m) current fuel current = some ((current + 1) % 2 ^ m) := by
  obtain ⟨f, rfl⟩ : ∃ f, fuel = f + 1 := ⟨fuel - 1, by omega⟩
  rw [probe]
  have hne : (current + 1) % 2 ^ m ≠ current := by
    intro he
    rcases Nat.lt_or_ge (current + 1) (2 ^ m) with h1 | h1
    · rw [Nat.mod_eq_of_lt h1] at he
      omega
    · have h2 : current + 1 = 2 ^ m := by omega
      rw [h2, Nat.mod_self] at he
      have h3 : (2 : Nat) ^ 1 ≤ 2 ^ m := Nat.pow_le_pow_right (by omega) hm
      omega
  rw [land_mask]
  rw [if_neg hne, if_pos (getD_eq_zero_of_all_zero counts hz _)]

/-- Full characterisation of a terminating probe: starting `k0` steps past
`current`, the loop stops at the `k`-th candidate `(current + k) mod 2^m`
for some `k > k0`; that slot has zero count and differs from `current`, and
every candidate strictly between was either `current` itself (skipped) or
had a non-zero count when inspected. -/
theorem probe_spec {m : Nat} (counts : List Nat) (current : Nat) :
    ∀ (fuel k0 t : Nat),
      probe counts (2 ^ m) current fuel ((current + k0) % 2 ^ m) = some t →
      ∃ k, k0 < k ∧ t = (current + k) % 2 ^ m ∧ counts.getD t 0 = 0 ∧ t ≠ current ∧
        ∀ j, k0 < j → j < k →
          ((current + j) % 2 ^ m = current ∨ counts.getD ((current + j) % 2 ^ m) 0 ≠ 0)
  | 0, _, _, h => by simp [probe] at h
  | fuel + 1, k0, t, h => by
    rw [probe] at h
    have hnx : Nat.land ((current + k0) % 2 ^ m + 1) (LEN_MASK (2 ^ m))
        = (current + (k0 + 1)) % 2 ^ m := by
      rw [land_mask, succ_mod_mod, Nat.add_assoc]
    rw [hnx] at h
    by_cases hc : (current + (k0 + 1)) % 2 ^ m = current
    · rw [if_pos hc] at h
      obtain ⟨k, hk0, ht, hz, hne, hmin⟩ := probe_spec counts current fuel (k0 + 1) t h
      refine ⟨k, by omega, ht, hz, hne, fun j hj1 hj2 => ?_⟩
      rcases Nat.lt_or_ge k0.succ j with hj | hj
      · exact hmin j hj hj2
      · have : j = k0 + 1 := by omega
        rw [this]
        exact Or.inl hc
    · rw [if_neg hc] at h
      by_cases hz : counts.getD ((current + (k0 + 1)) % 2 ^ m) 0 = 0
      · rw [if_pos hz] at h
        have ht : t = (current + (k0 + 1)) % 2 ^ m := (Option.some_inj.mp h).symm
        subst ht
        exact ⟨k0 + 1, by omega, rfl, hz, hc, fun j hj1 hj2 => by omega⟩
      · rw [if_neg hz] at h
        obtain ⟨k, hk0, ht, hzt, hne, hmin⟩ := probe_spec counts current fuel (k0 + 1) t h
        refine ⟨k, by omega, ht, hzt, hne, fun j hj1 hj2 => ?_⟩
        rcases Nat.lt_or_ge k0.succ j with hj | hj
        · exact hmin j hj hj2
        · have : j = k0 + 1 := by omega
          rw [this]
          exact Or.inr hz

/-! ### Sequential invariant -/

/-- Invariant of the quiescent sequential states: the item list has the
declared length, the published index is in range, no writer holds the flag,
every reader count is zero, and the slot named by `index` is `Full`. -/
def SeqInv (c : Cache T LEN) : Prop :=
  c.items.length = LEN ∧ c.index < LEN ∧ c.writing = false ∧
    (∀ it ∈ c.items, it.count = 0) ∧ c.published.isSome = true

/-- Decomposition of a completed `update` call. -/
theorem update_some {T : Type} {LEN : Nat} {c : Cache T LEN} {v : T}
    {fuel : Nat} {c1 : Cache T LEN} {old : Option T}
    (h : c.update v fuel = some (c1, old)) :
    c.writing = false ∧
      ∃ next, probe (c.items.map Item.count) LEN c.index fuel c.index = some next ∧
        c1 = { index := next
               writing := false
               items := modifyIdx (fun it => { it with data := some v }) next c.items } ∧
        old = (c.items[next]?).bind Item.data := by
  unfold Cache.update at h
  by_cases hw : c.writing
  · rw [if_pos hw] at h
    cases h
  · rw [if_neg hw] at h
    cases hp : probe (c.items.map Item.count) LEN c.index fuel c.index with
    | none => rw [hp] at h; cases h
    | some next =>
      rw [hp] at h
      obtain ⟨h1, h2⟩ := Prod.mk.injEq .. ▸ Option.some_inj.mp h
      exact ⟨Bool.not_eq_true _ ▸ hw, next, rfl, h1.symm, h2.symm⟩

/-- A freshly constructed cache: the length is a power of two (the const
assertion passed), the invariant holds, slot 0 publishes the initial value
and every other slot is `Empty`. -/
theorem new_spec {T : Type} {LEN : Nat} {v : T} {c0 : Cache T LEN}
    (h : Cache.new T LEN v = some c0) :
    (∃ m, LEN = 2 ^ m) ∧ SeqInv c0 ∧ c0.published = some v ∧
      c0.index = 0 ∧
      ∀ i, i < LEN → ((c0.items[i]?).bind Item.data).isSome = decide (i ≤ 0) := by
  unfold Cache.new at h
  cases hb : isPowerOfTwo LEN with
  | false => rw [hb] at h; cases h
  | true =>
    rw [hb] at h
    simp only [if_true] at h
    obtain ⟨m, hm⟩ := (isPowerOfTwo_iff LEN).mp hb
    have hpos : 0 < LEN := by rw [hm]; exact Nat.pos_pow_of_pos m (by omega)
    obtain rfl := (Option.some_inj.mp h).symm
    have hget : ∀ i, i < LEN →
        (modifyIdx (fun it => { it with data := some v }) 0
          (List.replicate LEN ({ count := 0, data := none } : Item T)))[i]? =
          some (if i = 0 then { count := 0, data := some v } else { count := 0, data := none }) := by
      intro i hi
      cases i with
      | zero =>
        rw [getElem?_modifyIdx_self, List.getElem?_replicate, if_pos hpos]
        rfl
      | succ n =>
        rw [getElem?_modifyIdx_ne _ _ _ _ (by omega), List.getElem?_replicate, if_pos hi]
        rfl
    have hmask : Nat.land (0 : Nat) (LEN_MASK LEN) = 0 := by
      rw [hm, land_mask, Nat.zero_mod]
    have hpub : Cache.published
        ({ index := 0, writing := false,
           items := modifyIdx (fun it => { it with data := some v }) 0
             (List.replicate LEN { count := 0, data := none }) } : Cache T LEN) = some v := by
      unfold Cache.published Cache.indexMasked
      simp only [hmask]
      rw [hget 0 hpos]
      rfl
    refine ⟨⟨m, hm⟩, ?_, hpub, rfl, ?_⟩
    · refine ⟨?_, hpos, rfl, ?_, ?_⟩
      · rw [length_modifyIdx, List.length_replicate]
      · exact count_eq_zero_of_modifyIdx (fun it => { it with data := some v }) (fun a => rfl) 0
          (List.replicate LEN ({ count := 0, data := none } : Item T))
          (fun it hit => by rw [List.eq_of_mem_replicate hit])
      · rw [hpub]
        rfl
    · intro i hi
      rw [hget i hi]
      cases i with
      | zero => rfl
      | succ n => rfl

/-- Running any sequence of completed operations from a state satisfying
the invariant preserves it, keeps the published value in step with the
writes, and every read along the way returned a value (never `Empty`). -/
theorem run_main {T : Type} {m : Nat} :
    ∀ (ops : List (Op T)) (v : T) (c : Cache T (2 ^ m)) (r : TraceResult T (2 ^ m)),
      SeqInv c → c.published = some v → c.runT ops = some r →
      SeqInv r.final ∧ r.final.published = some (lastValue v ops) ∧
        ∀ x ∈ r.reads, x.isSome = true
  | [], v, c, r, hinv, hpub, h => by
    rw [Cache.runT] at h
    obtain rfl := (Option.some_inj.mp h).symm
    exact ⟨hinv, hpub, by simp⟩
  | Op.read :: ops, v, c, r, hinv, hpub, h => by
    rw [Cache.runT, get_data_state] at h
    obtain ⟨r1, hr1, rfl⟩ := Option.map_eq_some'.mp h
    obtain ⟨h1, h2, h3⟩ := run_main ops v c r1 hinv hpub hr1
    refine ⟨h1, h2, ?_⟩
    intro x hx
    rcases List.mem_cons.mp hx with rfl | hx
    · rw [get_data_val, hpub]
      rfl
    · exact h3 x hx
  | Op.write w :: ops, v, c, r, hinv, hpub, h => by
    rw [Cache.runT] at h
    cases hu : c.update w (2 ^ m) with
    | none => rw [hu] at h; cases h
    | some p =>
      obtain ⟨c1, old⟩ := p
      rw [hu] at h
      obtain ⟨r1, hr1, rfl⟩ := Option.map_eq_some'.mp h
      obtain ⟨hw, next, hp, hc1, hold⟩ := update_some hu
      obtain ⟨hlen, hidx, hwr, hcnt, hpubS⟩ := hinv
      have hb := probe_some_bounds (c.items.map Item.count) c.index (2 ^ m) c.index next hp
      subst hc1
      have hpub1 : Cache.published
          ({ index := next, writing := false,
             items := modifyIdx (fun it => { it with data := some w }) next c.items }
            : Cache T (2 ^ m)) = some w := by
        unfold Cache.published Cache.indexMasked
        have hmask : Nat.land next (LEN_MASK (2 ^ m)) = next := by
          rw [land_mask]
          exact Nat.mod_eq_of_lt hb.1
        simp only [hmask]
        rw [getElem?_modifyIdx_self]
        have hnl : next < c.items.length := by
          rw [hlen]
          exact hb.1
        obtain ⟨a, ha⟩ : ∃ a, c.items[next]? = some a :=
          ⟨c.items.get ⟨next, hnl⟩, List.getElem?_eq_getElem hnl⟩
        rw [ha]
        rfl
      have hinv1 : SeqInv
          ({ index := next, writing := false,
             items := modifyIdx (fun it => { it with data := some w }) next c.items }
            : Cache T (2 ^ m)) := by
        refine ⟨?_, hb.1, rfl, ?_, ?_⟩
        · rw [length_modifyIdx]
          exact hlen
        · exact count_eq_zero_of_modifyIdx (fun it => { it with data := some w })
            (fun a => rfl) next c.items hcnt
        · rw [hpub1]
          rfl
      obtain ⟨h1, h2, h3⟩ := run_main ops w _ r1 hinv1 hpub1 hr1
      exact ⟨h1, h2, h3⟩

/-! ### Write-only runs: round-robin slot reuse and cell occupancy -/

/-- State after `k` completed writes on a fresh cache: quiescent, the index
is `k mod LEN`, and exactly the slots `0 .. min k (LEN-1)` are `Full`. -/
def WInv (c : Cache T LEN) (k : Nat) : Prop :=
  c.items.length = LEN ∧ c.writing = false ∧ (∀ it ∈ c.items, it.count = 0) ∧
    c.index = k % LEN ∧
    ∀ i, i < LEN → ((c.items[i]?).bind Item.data).isSome = decide (i < k + 1)

/-- A list whose first `full` positions hold `Full` cells and whose later
positions are `Empty` has exactly `min full length` resident values. -/
theorem length_filterMap_of_char {T : Type} :
    ∀ (l : List (Item T)) (full : Nat),
      (∀ i, i < l.length → ((l[i]?).bind Item.data).isSome = decide (i < full)) →
      (l.filterMap Item.data).length = min full l.length
  | [], full, _ => by simp
  | a :: l, full, h => by
    have h0 := h 0 (by simp)
    have htail : ∀ full1, (∀ i, i + 1 < full ↔ i < full1) →
        ∀ i, i < l.length → ((l[i]?).bind Item.data).isSome = decide (i < full1) := by
      intro full1 hiff i hi
      have := h (i + 1) (by simpa using hi)
      rw [List.getElem?_cons_succ] at this
      rw [this]
      rw [decide_eq_decide]
      exact hiff i
    cases full with
    | zero =>
      cases hd : a.data with
      | none =>
        rw [List.filterMap_cons, hd]
        rw [length_filterMap_of_char l 0 (htail 0 (fun i => by omega))]
        simp
      | some b =>
        rw [List.getElem?_cons_zero] at h0
        simp [hd] at h0
    | succ f =>
      cases hd : a.data with
      | none =>
        rw [List.getElem?_cons_zero] at h0
        simp [hd] at h0
      | some b =>
        rw [List.filterMap_cons, hd]
        rw [List.length_cons, List.length_cons,
          length_filterMap_of_char l f (htail f (fun i => by omega))]
        exact (Nat.succ_min_succ f l.length).symm

/-- Induction step for write-only runs: each completed write advances the
index round-robin to `(k+1) mod LEN`, installs there, and fills exactly one
more slot until all are `Full`. -/
theorem writes_ind {T : Type} {m : Nat} :
    ∀ (vs : List T) (k : Nat) (c : Cache T (2 ^ m)) (r : TraceResult T (2 ^ m)),
      WInv c k → c.runT (vs.map Op.write) = some r →
      WInv r.final (k + vs.length) ∧
        r.targets = (List.range vs.length).map (fun j => (k + j + 1) % 2 ^ m) ∧
        r.reads = []
  | [], k, c, r, hw, h => by
    rw [List.map_nil, Cache.runT] at h
    obtain rfl := (Option.some_inj.mp h).symm
    exact ⟨by simpa using hw, rfl, rfl⟩
  | v :: vs, k, c, r, hw, h => by
    rw [List.map_cons, Cache.runT] at h
    cases hu : c.update v (2 ^ m) with
    | none => rw [hu] at h; cases h
    | some p =>
      obtain ⟨c1, old⟩ := p
      rw [hu] at h
      obtain ⟨r1, hr1, rfl⟩ := Option.map_eq_some'.mp h
      obtain ⟨hwr, next, hp, hc1, hold⟩ := update_some hu
      obtain ⟨hlen, hwf, hcnt, hidx, hchar⟩ := hw
      have hz : ∀ x ∈ c.items.map Item.count, x = 0 := by
        intro x hx
        obtain ⟨it, hit, rfl⟩ := List.mem_map.mp hx
        exact hcnt it hit
      have hm1 : 1 ≤ m := by
        by_contra hm0
        have hm0 : m = 0 := by omega
        subst hm0
        have hcur : c.index = 0 := by
          rw [hidx, Nat.pow_zero, Nat.mod_one]
        have : probe (c.items.map Item.count) (2 ^ 0) c.index (2 ^ 0) c.index = none := by
          apply probe_stuck
          rw [hcur]
          rfl
        rw [this] at hp
        cases hp
      have hcur : c.index < 2 ^ m := by
        rw [hidx]
        exact Nat.mod_lt _ (Nat.pos_pow_of_pos m (by omega))
      have hfirst := probe_first (c.items.map Item.count) c.index (2 ^ m) hm1 hcur hz
        (Nat.le_of_lt (Nat.lt_of_lt_of_le Nat.one_lt_two (Nat.le_self_pow (by omega) 2)))
      have hnext : next = (k + 1) % 2 ^ m := by
        rw [hfirst] at hp
        rw [← Option.some_inj.mp hp, hidx, succ_mod_mod]
      have hnl : next < 2 ^ m := by
        rw [hnext]
        exact Nat.mod_lt _ (Nat.pos_pow_of_pos m (by omega))
      subst hc1
      have hw1 : WInv
          ({ index := next, writing := false,
             items := modifyIdx (fun it => { it with data := some v }) next c.items }
            : Cache T (2 ^ m)) (k + 1) := by
        refine ⟨?_, rfl, ?_, ?_, ?_⟩
        · rw [length_modifyIdx]
          exact hlen
        · exact count_eq_zero_of_modifyIdx (fun it => { it with data := some v })
            (fun a => rfl) next c.items hcnt
        · exact hnext
        · intro i hi
          by_cases hieq : i = next
          · subst hieq
            rw [getElem?_modifyIdx_self]
            obtain ⟨a, ha⟩ : ∃ a, c.items[i]? = some a :=
              ⟨c.items.get ⟨i, by rw [hlen]; exact hi⟩,
                List.getElem?_eq_getElem (by rw [hlen]; exact hi)⟩
            rw [ha]
            have : i < k + 1 + 1 := by
              have := Nat.mod_le (k + 1) (2 ^ m)
              omega
            simp [this]
          · rw [getElem?_modifyIdx_ne _ _ _ _ (fun he => hieq he.symm), hchar i hi]
            rw [decide_eq_decide]
            have hik : i ≠ k + 1 := by
              intro he
              apply hieq
              rw [hnext, he, Nat.mod_eq_of_lt (he ▸ hi)]
            omega
      obtain ⟨ih1, ih2, ih3⟩ := writes_ind vs (k + 1) _ r1 hw1 hr1
      refine ⟨?_, ?_, ih3⟩
      · have : k + (vs.length + 1) = k + 1 + vs.length := by omega
        rw [List.length_cons, this]
        exact ih1
      · show next :: r1.targets = _
        rw [List.length_cons, List.range_succ_eq_map, List.map_cons, List.map_map, ih2]
        have : ((fun j => (k + j + 1) % 2 ^ m) ∘ Nat.succ)
            = fun j => (k + 1 + j + 1) % 2 ^ m := by
          funext j
          show (k + (j + 1) + 1) % 2 ^ m = (k + 1 + j + 1) % 2 ^ m
          rw [show k + (j + 1) + 1 = k + 1 + j + 1 from by omega]
        rw [this, hnext]

/-- A fresh cache satisfies the write-run invariant at `k = 0`. -/
theorem new_winv {T : Type} {LEN : Nat} {v : T} {c0 : Cache T LEN}
    (hnew : Cache.new T LEN v = some c0) : WInv c0 0 := by
  obtain ⟨⟨m, hm⟩, ⟨hlen, hidx, hwr, hcnt, _⟩, _, hidx0, hchar⟩ := new_spec hnew
  refine ⟨hlen, hwr, hcnt, ?_, ?_⟩
  · rw [hidx0, Nat.zero_mod]
  · intro i hi
    rw [hchar i hi, decide_eq_decide]
    omega

/-- A block of reads changes no cache state; it only prepends `n` copies of
the currently published value to the list of read results. -/
theorem runT_replicate_read {T : Type} {LEN : Nat} (c : Cache T LEN) :
    ∀ (n : Nat) (ops : List (Op T)),
      c.runT (List.replicate n Op.read ++ ops) =
        (c.runT ops).map
          (fun r => { r with reads := List.replicate n (c.get_data).1 ++ r.reads })
  | 0, ops => by
    rw [List.replicate_zero, List.nil_append]
    cases c.runT ops <;> rfl
  | n + 1, ops => by
    rw [List.replicate_succ, List.cons_append, Cache.runT, get_data_state,
      runT_replicate_read c n ops, Option.map_map]
    cases c.runT ops <;> rfl

/-! ### The claims -/

/-- C1: in every state reachable by construction followed by any sequence
of completed `get_data` and `update` calls, the slot named by `index`
holds a `Full` (`Some`) cell, so `get_data`'s unchecked unwrap never sees
`None`: the final `get_data` returns a value, and so did every read along
the way. -/
theorem claim1_index_slot_full {T : Type} {LEN : Nat} (v0 : T) (ops : List (Op T))
    (c0 : Cache T LEN) (r : TraceResult T LEN)
    (hnew : Cache.new T LEN v0 = some c0) (hrun : c0.runT ops = some r) :
    r.final.published.isSome = true ∧ ((r.final.get_data).1).isSome = true ∧
      ∀ x ∈ r.reads, x.isSome = true := by
  obtain ⟨⟨m, hm⟩, hinv, hpub, _, _⟩ := new_spec hnew
  subst hm
  obtain ⟨h1, h2, h3⟩ := run_main ops v0 c0 r hinv hpub hrun
  refine ⟨?_, ?_, h3⟩
  · rw [h2]
    rfl
  · rw [get_data_val, h2]
    rfl

theorem claim1_index_slot_full_witness :
    (TraceResult.mk (Cache.mk 1 false [⟨0, some 0⟩, ⟨0, some 1⟩] : Cache Nat 2)
        [some 1] [] [1]).final.published.isSome = true ∧
      (((TraceResult.mk (Cache.mk 1 false [⟨0, some 0⟩, ⟨0, some 1⟩] : Cache Nat 2)
        [some 1] [] [1]).final.get_data).1).isSome = true ∧
      ∀ x ∈ (TraceResult.mk (Cache.mk 1 false [⟨0, some 0⟩, ⟨0, some 1⟩] : Cache Nat 2)
        [some 1] [] [1]).reads, x.isSome = true :=
  claim1_index_slot_full 0 [Op.write 1, Op.read]
    (Cache.mk 0 false [⟨0, some 0⟩, ⟨0, none⟩]) _ (by rfl) (by rfl)

/-- C2 counterexample: the claim says every `N < 2` is rejected, but
`N = 1` is a power of two, so the const check passes and construction
succeeds. -/
theorem claim2_counterexample :
    (1 : Nat) < 2 ∧ (Cache.new Nat 1 0).isSome = true :=
  ⟨by omega, by rfl⟩

/-- C2 (amended): construction succeeds exactly when `N` is a power of
two — every non-power-of-two is rejected by the const check, but `N = 1`
is accepted. -/
theorem claim2_amended (T : Type) (LEN : Nat) (v : T) :
    (Cache.new T LEN v).isSome = isPowerOfTwo LEN ∧
      (isPowerOfTwo LEN = true ↔ ∃ k, LEN = 2 ^ k) := by
  refine ⟨?_, isPowerOfTwo_iff LEN⟩
  cases hb : isPowerOfTwo LEN <;> simp [Cache.new, hb]

/-- C3: in every sequential execution, `get_data` returns a clone of the
most recently published value — the initial value right after
construction, and after `update v` returns (with no later update) the
value `v`. -/
theorem claim3_reads_latest {T : Type} {LEN : Nat} (v0 : T) (ops : List (Op T))
    (c0 : Cache T LEN) (r : TraceResult T LEN)
    (hnew : Cache.new T LEN v0 = some c0) (hrun : c0.runT ops = some r) :
    (r.final.get_data).1 = some (lastValue v0 ops) := by
  obtain ⟨⟨m, hm⟩, hinv, hpub, _, _⟩ := new_spec hnew
  subst hm
  obtain ⟨h1, h2, h3⟩ := run_main ops v0 c0 r hinv hpub hrun
  rw [get_data_val, h2]

theorem claim3_reads_latest_witness :
    ((TraceResult.mk (Cache.mk 1 false [⟨0, some 10⟩, ⟨0, some 11⟩] : Cache Nat 2)
        [some 11] [] [1]).final.get_data).1
      = some (lastValue 10 [Op.write 11, Op.read]) :=
  claim3_reads_latest 10 [Op.write 11, Op.read]
    (Cache.mk 0 false [⟨0, some 10⟩, ⟨0, none⟩]) _ (by rfl) (by rfl)

/-- C4: a completed `update` on an `N = 2^m`-slot cache chooses as target
the first slot in the probe order `current+1, current+2, ... (mod N)` that
is distinct from `current` and whose reader counter is zero when examined;
in particular the target is never the slot named by `index` at the start
of the write, and the newly stored index is in `[0, N)`. -/
theorem claim4_target_first_free (m current fuel t : Nat) (counts : List Nat)
    (hcur : current < 2 ^ m)
    (hp : probe counts (2 ^ m) current fuel current = some t) :
    t < 2 ^ m ∧ t ≠ current ∧ counts.getD t 0 = 0 ∧
      ∃ k, 1 ≤ k ∧ t = (current + k) % 2 ^ m ∧
        ∀ j, 1 ≤ j → j < k →
          ((current + j) % 2 ^ m = current ∨
            counts.getD ((current + j) % 2 ^ m) 0 ≠ 0) := by
  have hp0 : probe counts (2 ^ m) current fuel ((current + 0) % 2 ^ m) = some t := by
    rw [Nat.add_zero, Nat.mod_eq_of_lt hcur]
    exact hp
  obtain ⟨k, hk, ht, hz, hne, hmin⟩ := probe_spec counts current fuel 0 t hp0
  refine ⟨?_, hne, hz, k, hk, ht, hmin⟩
  rw [ht]
  exact Nat.mod_lt _ (Nat.pos_pow_of_pos m (by omega))

theorem claim4_target_first_free_witness :
    2 < 2 ^ 2 ∧ 2 ≠ 0 ∧ List.getD [0, 5, 0, 0] 2 0 = 0 ∧
      ∃ k, 1 ≤ k ∧ 2 = (0 + k) % 2 ^ 2 ∧
        ∀ j, 1 ≤ j → j < k →
          ((0 + j) % 2 ^ 2 = 0 ∨ List.getD [0, 5, 0, 0] ((0 + j) % 2 ^ 2) 0 ≠ 0) :=
  claim4_target_first_free 2 0 4 2 [0, 5, 0, 0] (by omega) (by rfl)

/-- C5: for every `k` and every cache, dropping the cache after `k`
completed update calls in a sequential execution drops exactly
`min (k+1) N` cell-resident values (the `Full` cells); in particular after
`k ≥ N - 1` updates it drops exactly `N`. -/
theorem claim5_drop_count {T : Type} {LEN : Nat} (v0 : T) (vs : List T)
    (c0 : Cache T LEN) (r : TraceResult T LEN)
    (hnew : Cache.new T LEN v0 = some c0)
    (hrun : c0.runT (vs.map Op.write) = some r) :
    r.final.fullCount = min (vs.length + 1) LEN := by
  obtain ⟨m, hm⟩ := (new_spec hnew).1
  subst hm
  obtain ⟨⟨hlen, hwr, hcnt, hidx, hchar⟩, _, _⟩ :=
    writes_ind vs 0 c0 r (new_winv hnew) hrun
  unfold Cache.fullCount Cache.residentData
  rw [length_filterMap_of_char r.final.items (vs.length + 1) ?_, hlen]
  intro i hi
  rw [hchar i (by rw [← hlen]; exact hi), decide_eq_decide]
  omega

theorem claim5_drop_count_witness :
    (TraceResult.mk (Cache.mk 1 false [⟨0, some 6⟩, ⟨0, some 7⟩] : Cache Nat 2)
        [] [0, 5] [1, 0, 1]).final.fullCount = min ([5, 6, 7].length + 1) 2 :=
  claim5_drop_count 0 [5, 6, 7]
    (Cache.mk 0 false [⟨0, some 0⟩, ⟨0, none⟩]) _ (by rfl) (by rfl)

/-- C8: every complete operation leaves the cache quiescent. `get_data`
returns the state exactly as it found it (the increment and decrement of
the one reader counter cancel; cells and index untouched), and a completed
`update` ends with the `writing` flag false and, when the counters were
all zero at entry, they are all zero at return. -/
theorem claim8_quiescent (T : Type) (LEN : Nat) :
    (∀ c : Cache T LEN, (c.get_data).2 = c) ∧
      ∀ (c c1 : Cache T LEN) (v : T) (fuel : Nat) (old : Option T),
        c.update v fuel = some (c1, old) →
        c1.writing = false ∧
          ((∀ it ∈ c.items, it.count = 0) → ∀ it ∈ c1.items, it.count = 0) := by
  refine ⟨get_data_state, fun c c1 v fuel old hu => ?_⟩
  obtain ⟨hw, next, hp, hc1, hold⟩ := update_some hu
  subst hc1
  exact ⟨rfl, fun hcnt => count_eq_zero_of_modifyIdx (fun it => { it with data := some v })
    (fun a => rfl) next c.items hcnt⟩

theorem claim8_quiescent_witness :
    ((Cache.mk 0 false [⟨0, some 3⟩, ⟨0, none⟩] : Cache Nat 2).get_data).2
        = Cache.mk 0 false [⟨0, some 3⟩, ⟨0, none⟩] ∧
      ((Cache.mk 1 false [⟨0, some 3⟩, ⟨0, some 4⟩] : Cache Nat 2).writing = false ∧
        ((∀ it ∈ (Cache.mk 0 false [⟨0, some 3⟩, ⟨0, none⟩] : Cache Nat 2).items,
            it.count = 0) →
          ∀ it ∈ (Cache.mk 1 false [⟨0, some 3⟩, ⟨0, some 4⟩] : Cache Nat 2).items,
            it.count = 0)) :=
  ⟨(claim8_quiescent Nat 2).1 (Cache.mk 0 false [⟨0, some 3⟩, ⟨0, none⟩]),
    (claim8_quiescent Nat 2).2 (Cache.mk 0 false [⟨0, some 3⟩, ⟨0, none⟩])
      (Cache.mk 1 false [⟨0, some 3⟩, ⟨0, some 4⟩]) 4 2 none (by rfl)⟩

/-- C9: with `LEN = 1` the const check accepts (1 is a power of two) so
construction succeeds, but every `update` call spins forever: the only
candidate `(current + 1) & 0 = 0` equals `current`, is always skipped, and
the search never exits (modelled: `update` returns `none` for every
fuel). -/
theorem claim9_len_one (T : Type) (v : T) :
    (Cache.new T 1 v).isSome = true ∧
      ∀ (c : Cache T 1) (w : T) (fuel : Nat), c.index = 0 →
        c.update w fuel = none := by
  constructor
  · rfl
  · intro c w fuel hc
    unfold Cache.update
    by_cases hw : c.writing
    · rw [if_pos hw]
    · rw [if_neg hw]
      have hnone : probe (c.items.map Item.count) 1 c.index fuel c.index = none := by
        rw [hc]
        exact probe_stuck _ 1 0 rfl fuel
      rw [hnone]

theorem claim9_len_one_witness :
    (Cache.new Nat 1 7).isSome = true ∧
      (Cache.mk 0 false [⟨0, some 7⟩] : Cache Nat 1).update 9 5 = none :=
  ⟨(claim9_len_one Nat 7).1,
    (claim9_len_one Nat 7).2 (Cache.mk 0 false [⟨0, some 7⟩]) 9 5 rfl⟩

/-- C10: in a sequential execution (all reader counters zero) on a cache
with `N = 2^m ≥ 2` slots, the probe loop selects `(current + 1) mod N` on
its first inspected candidate; consequently slot reuse is deterministic
round-robin — in a write-only run from a fresh cache the `k`-th update
installs into slot `k mod N`. -/
theorem claim10_round_robin (T : Type) :
    (∀ (m current fuel : Nat) (counts : List Nat), 1 ≤ m → current < 2 ^ m →
        (∀ x ∈ counts, x = 0) → 1 ≤ fuel →
        probe counts (2 ^ m) current fuel current = some ((current + 1) % 2 ^ m)) ∧
      ∀ (m : Nat) (v0 : T) (vs : List T) (c0 : Cache T (2 ^ m))
        (r : TraceResult T (2 ^ m)),
        Cache.new T (2 ^ m) v0 = some c0 → c0.runT (vs.map Op.write) = some r →
        r.targets = (List.range vs.length).map (fun j => (j + 1) % 2 ^ m) := by
  constructor
  · exact fun m current fuel counts hm hcur hz hfuel =>
      probe_first counts current fuel hm hcur hz hfuel
  · intro m v0 vs c0 r hnew hrun
    obtain ⟨_, htargets, _⟩ := writes_ind vs 0 c0 r (new_winv hnew) hrun
    rw [htargets]
    have : (fun j => (0 + j + 1) % 2 ^ m) = fun j => (j + 1) % 2 ^ m := by
      funext j
      rw [Nat.zero_add]
    rw [this]

theorem claim10_round_robin_witness :
    probe [] (2 ^ 1) 0 1 0 = some ((0 + 1) % 2 ^ 1) ∧
      (TraceResult.mk (Cache.mk 1 false [⟨0, some 6⟩, ⟨0, some 7⟩] : Cache Nat (2 ^ 1))
          [] [0, 5] [1, 0, 1]).targets
        = (List.range [5, 6, 7].length).map (fun j => (j + 1) % 2 ^ 1) :=
  ⟨(claim10_round_robin Nat).1 1 0 1 [] (by omega) (by omega) (by simp) (by omega),
    (claim10_round_robin Nat).2 1 0 [5, 6, 7]
      (Cache.mk 0 false [⟨0, some 0⟩, ⟨0, none⟩]) _ (by rfl) (by rfl)⟩

/-- C6 counterexample: with `N = 4`, five update calls with one read
between consecutive updates destroy 6 cell-resident values over the
cache's lifetime (updates 1-3 replace `Empty`, update 4 replaces the
initial value, update 5 replaces update 1's value, and 4 values remain
for the final drop), not 5: the claimed totals `5` cell drops and
`5 + reads` overall are both wrong. -/
theorem claim6_counterexample :
    ((Cache.new Nat 4 0).bind
        (fun c0 => c0.runT (fiveWriteOps 1 2 3 4 5 1 1 1 1))).map
        (fun r => (r.dropped.length + r.final.fullCount, r.reads.length))
      = some (6, 4) ∧ (6 : Nat) ≠ 5 ∧ (6 + 4 : Nat) ≠ 5 + 4 :=
  ⟨by rfl, by omega, by omega⟩

/-- C6 (amended): for `N = 4`, in a sequential execution of 5 update calls
with at least one `get_data` between consecutive updates, the total number
of destructor invocations on cell-resident values — counting both the
replacements during the updates and the values destroyed when the cache is
finally dropped — is exactly 6 (updates 1-3 replace `Empty`; update 4
replaces the initial value; update 5 replaces update 1's value; the other
4 values die with the cache), plus one destructor invocation per
`get_data` for the cloned return values. -/
theorem claim6_amended {T : Type} (v0 v1 v2 v3 v4 v5 : T) (r1 r2 r3 r4 : Nat)
    (c0 : Cache T 4)
    (h1 : 1 ≤ r1) (h2 : 1 ≤ r2) (h3 : 1 ≤ r3) (h4 : 1 ≤ r4)
    (hnew : Cache.new T 4 v0 = some c0) :
    ∃ r, c0.runT (fiveWriteOps v1 v2 v3 v4 v5 r1 r2 r3 r4) = some r ∧
      r.dropped = [v0, v1] ∧ r.final.residentData = [v4, v5, v2, v3] ∧
      r.dropped.length + r.final.fullCount = 6 ∧
      r.reads.length = r1 + r2 + r3 + r4 := by
  have hc0 : c0 = Cache.mk 0 false [⟨0, some v0⟩, ⟨0, none⟩, ⟨0, none⟩, ⟨0, none⟩] := by
    have hn : Cache.new T 4 v0
        = some (Cache.mk 0 false [⟨0, some v0⟩, ⟨0, none⟩, ⟨0, none⟩, ⟨0, none⟩]) := by with_unfolding_all rfl
    rw [hn] at hnew
    exact (Option.some_inj.mp hnew).symm
  subst hc0
  have e1 : (Cache.mk 0 false [⟨0, some v0⟩, ⟨0, none⟩, ⟨0, none⟩, ⟨0, none⟩]
      : Cache T 4).update v1 4
      = some (Cache.mk 1 false [⟨0, some v0⟩, ⟨0, some v1⟩, ⟨0, none⟩, ⟨0, none⟩], none) := by with_unfolding_all rfl
  have e2 : (Cache.mk 1 false [⟨0, some v0⟩, ⟨0, some v1⟩, ⟨0, none⟩, ⟨0, none⟩]
      : Cache T 4).update v2 4
      = some (Cache.mk 2 false [⟨0, some v0⟩, ⟨0, some v1⟩, ⟨0, some v2⟩, ⟨0, none⟩],
          none) := by with_unfolding_all rfl
  have e3 : (Cache.mk 2 false [⟨0, some v0⟩, ⟨0, some v1⟩, ⟨0, some v2⟩, ⟨0, none⟩]
      : Cache T 4).update v3 4
      = some (Cache.mk 3 false [⟨0, some v0⟩, ⟨0, some v1⟩, ⟨0, some v2⟩, ⟨0, some v3⟩],
          none) := by with_unfolding_all rfl
  have e4 : (Cache.mk 3 false [⟨0, some v0⟩, ⟨0, some v1⟩, ⟨0, some v2⟩, ⟨0, some v3⟩]
      : Cache T 4).update v4 4
      = some (Cache.mk 0 false [⟨0, some v4⟩, ⟨0, some v1⟩, ⟨0, some v2⟩, ⟨0, some v3⟩],
          some v0) := by with_unfolding_all rfl
  have e5 : (Cache.mk 0 false [⟨0, some v4⟩, ⟨0, some v1⟩, ⟨0, some v2⟩, ⟨0, some v3⟩]
      : Cache T 4).update v5 4
      = some (Cache.mk 1 false [⟨0, some v4⟩, ⟨0, some v5⟩, ⟨0, some v2⟩, ⟨0, some v3⟩],
          some v1) := by with_unfolding_all rfl
  have g1 : ((Cache.mk 1 false [⟨0, some v0⟩, ⟨0, some v1⟩, ⟨0, none⟩, ⟨0, none⟩]
      : Cache T 4).get_data).1 = some v1 := by with_unfolding_all rfl
  have g2 : ((Cache.mk 2 false [⟨0, some v0⟩, ⟨0, some v1⟩, ⟨0, some v2⟩, ⟨0, none⟩]
      : Cache T 4).get_data).1 = some v2 := by with_unfolding_all rfl
  have g3 : ((Cache.mk 3 false [⟨0, some v0⟩, ⟨0, some v1⟩, ⟨0, some v2⟩, ⟨0, some v3⟩]
      : Cache T 4).get_data).1 = some v3 := by with_unfolding_all rfl
  have g4 : ((Cache.mk 0 false [⟨0, some v4⟩, ⟨0, some v1⟩, ⟨0, some v2⟩, ⟨0, some v3⟩]
      : Cache T 4).get_data).1 = some v4 := by with_unfolding_all rfl
  have key : (Cache.mk 0 false [⟨0, some v0⟩, ⟨0, none⟩, ⟨0, none⟩, ⟨0, none⟩]
      : Cache T 4).runT (fiveWriteOps v1 v2 v3 v4 v5 r1 r2 r3 r4)
      = some (TraceResult.mk
          (Cache.mk 1 false [⟨0, some v4⟩, ⟨0, some v5⟩, ⟨0, some v2⟩, ⟨0, some v3⟩])
          (List.replicate r1 (some v1) ++ (List.replicate r2 (some v2) ++
            (List.replicate r3 (some v3) ++ (List.replicate r4 (some v4) ++ []))))
          [v0, v1] [1, 2, 3, 0, 1]) := by
    simp only [fiveWriteOps, Cache.runT, e1, e2, e3, e4, e5,
      runT_replicate_read, Option.map_map, g1, g2, g3, g4]
    with_unfolding_all rfl
  refine ⟨_, key, ?_, ?_, ?_, ?_⟩
  · rfl
  · rfl
  · rfl
  · show (List.replicate r1 (some v1) ++ (List.replicate r2 (some v2) ++
      (List.replicate r3 (some v3) ++ (List.replicate r4 (some v4) ++ [])))).length
      = r1 + r2 + r3 + r4
    simp only [List.length_append, List.length_replicate, List.length_nil]
    omega

theorem claim6_amended_witness :
    ∃ r, (Cache.mk 0 false [⟨0, some 10⟩, ⟨0, none⟩, ⟨0, none⟩, ⟨0, none⟩]
        : Cache Nat 4).runT (fiveWriteOps 11 12 13 14 15 1 1 1 1) = some r ∧
      r.dropped = [10, 11] ∧ r.final.residentData = [14, 15, 12, 13] ∧
      r.dropped.length + r.final.fullCount = 6 ∧
      r.reads.length = 1 + 1 + 1 + 1 :=
  claim6_amended 10 11 12 13 14 15 1 1 1 1 _
    (by omega) (by omega) (by omega) (by omega) (by rfl)

/-- C7: the spec's `N = 4`, `T = String` scenario — construct with `"a"`,
read, write `"b"`, read, write `"c"`, read, write `"d"`, write `"e"`,
read, drop — returns reads `"a"`, `"b"`, `"c"`, `"e"` in order, drops
exactly one cell-resident string during the writes (`"a"`, overwritten by
the write of `"e"`), and leaves `"e"`, `"b"`, `"c"`, `"d"` resident to be
destroyed by the cache drop: 1 + 4 = 5 cell-resident destructions. -/
theorem claim7_string_trace :
    ((Cache.new String 4 "a").bind (fun c0 => c0.runT stringTraceOps)).map
        (fun r => (r.reads, r.dropped, r.final.residentData))
      = some ([some "a", some "b", some "c", some "e"], ["a"], ["e", "b", "c", "d"]) ∧
      (["a"].length + (["e", "b", "c", "d"] : List String).length = 5) :=
  ⟨by rfl, by rfl⟩

end Sloth
